import Mathlib

/-!
# Verification of the leftwm decision core

A shallow embedding of the focus handlers (src/handlers/focus_handler.rs),
the display-event rate limiter (src/handlers/display_event_handler.rs),
the state-socket broadcaster (src/utils/state_socket.rs) and the child
process table (src/utils/child_process.rs), together with theorems
settling the specification claims about them.

Rust integer types are embedded as follows: coordinates (i32) become
unbounded Int (the programs under verification never rely on i32
wrap-around, and all concrete inputs stay far inside the i32 range);
the event timestamp (c_ulong, u64) becomes Nat with explicit mod 2^64
wrapping where the code subtracts; pids (u32) become Nat.
VecDeque push_front is list cons, truncate is List.take, push_back is
append at the right end.
-/

namespace LeftWM

/-- Modelled from the spec: a window or workspace geometry
(position and size) used for point-containment and distance queries.
The concrete struct lives outside src/ (models/xyhw.rs); the spec only
requires a rectangle with a geometric center. -/
structure Xyhw where
  x : Int
  y : Int
  h : Int
  w : Int
  deriving DecidableEq

/-- Modelled from the spec: the center of the rectangle
(integer division, as in the source's i32 arithmetic). -/
def Xyhw.center (r : Xyhw) : Int × Int :=
  (r.x + r.w / 2, r.y + r.h / 2)

/-- Modelled from the spec: point containment for a rectangle. -/
def Xyhw.contains_point (r : Xyhw) (px py : Int) : Bool :=
  decide (r.x ≤ px) && decide (px ≤ r.x + r.w) &&
  decide (r.y ≤ py) && decide (py ≤ r.y + r.h)

/-- Modelled from the spec: a window. The opaque platform handle
(WindowHandle) is embedded as a Nat; tags are the tag names the window
belongs to; unmanaged windows (docks, bars) never receive focus;
never_focus is the rest of the focusability predicate; xyhw is the
computed geometry. The concrete struct lives outside src/
(models/window.rs). -/
structure Window where
  handle : Nat
  tags : List String
  unmanaged : Bool
  never_focus : Bool
  xyhw : Xyhw
  deriving DecidableEq

/-- Modelled from the spec: docks and bars are unmanaged. -/
def Window.is_unmanaged (w : Window) : Bool := w.unmanaged

/-- Modelled from the spec: the focusability predicate — unmanaged
windows never receive focus. -/
def Window.can_focus (w : Window) : Bool := !w.never_focus && !w.unmanaged

/-- Modelled from the spec: membership of a tag name. -/
def Window.has_tag (w : Window) (t : String) : Bool := w.tags.contains t

/-- Modelled from the spec: containment of a point in the window's
computed geometry. -/
def Window.contains_point (w : Window) (px py : Int) : Bool :=
  w.xyhw.contains_point px py

/-- Modelled from the spec: same as the source calculated_xyhw, the
geometry used for distance queries. -/
def Window.calculated_xyhw (w : Window) : Xyhw := w.xyhw

/-- Modelled from the spec: a workspace — optional numeric identity,
the ordered list of tag names it displays, and a geometry. The concrete
struct lives outside src/ (models/workspace.rs). -/
structure Workspace where
  id : Option Int
  tags : List String
  xyhw : Xyhw
  deriving DecidableEq

/-- Modelled from the spec: a workspace displays a tag when the tag is
in its list. -/
def Workspace.has_tag (ws : Workspace) (t : String) : Bool := ws.tags.contains t

/-- Modelled from the spec: a window is displayed on a workspace when it
shares a tag with it. -/
def Workspace.is_displaying (ws : Workspace) (w : Window) : Bool :=
  w.tags.any (fun t => ws.has_tag t)

/-- Modelled from the spec: a window is managed by a workspace when it is
displayed there and is not an unmanaged (dock) window. -/
def Workspace.is_managed (ws : Workspace) (w : Window) : Bool :=
  ws.is_displaying w && !w.is_unmanaged

/-- Modelled from the spec: containment of a point in the workspace
geometry. -/
def Workspace.contains_point (ws : Workspace) (px py : Int) : Bool :=
  ws.xyhw.contains_point px py

/-- The outbound display actions used by the handlers under
verification (display_action.rs lives outside src/; the variants are
those the sources in src/ construct). -/
inductive DisplayAction where
  | WindowTakeFocus (w : Window)
  | Unfocus
  | FocusWindowUnderCursor
  | SetCurrentTags (tag : String)
  | NormalMode
  deriving DecidableEq

/-- Modelled from the spec: the focus policy — Sloppy (focus follows
pointer) and the explicit, click-driven alternative. -/
inductive FocusBehaviour where
  | Sloppy
  | ClickTo
  deriving DecidableEq

/-- Modelled from the spec: the FocusManager — policy plus the four
history structures. Each history is a most-recent-first sequence
(VecDeque with the front at the list head); tags_last_window is the
map from tag name to the last window focused while the tag was active,
embedded as an association list. -/
structure FocusManager where
  behaviour : FocusBehaviour
  workspace_history : List Nat
  window_history : List (Option Nat)
  tag_history : List String
  tags_last_window : List (String × Nat)
  deriving DecidableEq

/-- FocusManager::tag — position p of the tag history. -/
def FocusManager.tag (fm : FocusManager) (p : Nat) : Option String :=
  fm.tag_history.get? p

/-- Modelled from the spec: the Manager root — ordered windows,
ordered workspaces, the FIFO action queue (push_back appends at the
right end), the focus manager and the frame-rate limiter timestamp. -/
structure Manager where
  windows : List Window
  workspaces : List Workspace
  actions : List DisplayAction
  focus_manager : FocusManager
  frame_rate_limitor : Nat
  deriving DecidableEq

/-- Manager::focused_workspace — the workspace at the index stored at
the front of the workspace history. -/
def Manager.focused_workspace (m : Manager) : Option Workspace :=
  m.focus_manager.workspace_history.head?.bind (fun i => m.workspaces.get? i)

/-- Manager::focused_window — the front of the window history is an
optional handle; a present handle is resolved against the window list. -/
def Manager.focused_window (m : Manager) : Option Window :=
  (m.focus_manager.window_history.head?.bind id).bind
    (fun h => m.windows.find? (fun w => decide (w.handle = h)))

/-! ## Display event rate limiter (display_event_handler.rs lines 86-103) -/

/-- Wrapping to the u64 range. -/
def wrap64 (n : Nat) : Nat := n % 2 ^ 64

/-- u64 wrapping subtraction, as performed by time - frame_rate_limitor
in the source. -/
def sub64 (a b : Nat) : Nat := (a + (2 ^ 64 - b % 2 ^ 64)) % 2 ^ 64

/-- The MoveWindow arm of DisplayEventHandler::process. The inner move
handler (window_move_handler::process, outside src/) is abstracted as
the parameter inner, returning the updated manager and the refresh
flag; the limiter logic around it is the code under verification:
the update runs only when time - frame_rate_limitor > 1000 / 60, and
only then is the limiter set to the event time. -/
def process_move_window (inner : Manager → Manager × Bool)
    (m : Manager) (time : Nat) : Manager × Bool :=
  if 1000 / 60 < sub64 time m.frame_rate_limitor then
    let r := inner m
    ({ r.1 with frame_rate_limitor := wrap64 time }, r.2)
  else (m, false)

/-- The ResizeWindow arm of DisplayEventHandler::process; textually the
same limiter around the abstracted resize handler, sharing the same
frame_rate_limitor field. -/
def process_resize_window (inner : Manager → Manager × Bool)
    (m : Manager) (time : Nat) : Manager × Bool :=
  if 1000 / 60 < sub64 time m.frame_rate_limitor then
    let r := inner m
    ({ r.1 with frame_rate_limitor := wrap64 time }, r.2)
  else (m, false)

/-! ## Focus handlers (focus_handler.rs) -/

/-- The push half of focus_workspace_work: truncate the workspace
history to 10, then, when a workspace with the given id exists, push
its index to the front. Note the source truncates before the fallible
position lookup, so the truncation happens even when the lookup fails. -/
def focus_workspace_push (m : Manager) (workspace_id : Option Int) : Manager × Bool :=
  let hist := m.focus_manager.workspace_history.take 10
  match m.workspaces.findIdx? (fun x => decide (x.id = workspace_id)) with
  | none =>
      ({ m with focus_manager := { m.focus_manager with workspace_history := hist } }, false)
  | some index =>
      ({ m with focus_manager :=
          { m.focus_manager with workspace_history := index :: hist } }, true)

/-- focus_workspace_work — no new history when the focused workspace
already has the requested id; the Bool mirrors is_some of the source's
Option return. -/
def focus_workspace_work (m : Manager) (workspace_id : Option Int) : Manager × Bool :=
  match m.focused_workspace with
  | some fws =>
      if fws.id = workspace_id then (m, false) else focus_workspace_push m workspace_id
  | none => focus_workspace_push m workspace_id

/-- The push half of focus_tag_work: truncate the tag history to 10,
then push the tag at the front. -/
def focus_tag_push (m : Manager) (tag : String) : Manager × Bool :=
  ({ m with focus_manager :=
      { m.focus_manager with tag_history := tag :: m.focus_manager.tag_history.take 10 } },
   true)

/-- focus_tag_work — no new history when the front of the tag history
is already this tag. -/
def focus_tag_work (m : Manager) (tag : String) : Manager × Bool :=
  match m.focus_manager.tag 0 with
  | some t => if t = tag then (m, false) else focus_tag_push m tag
  | none => focus_tag_push m tag

/-- The history push of focus_window_by_handle_work: truncate the
window history to 10 and push the handle at the front. -/
def window_history_push (m : Manager) (handle : Nat) : Manager :=
  { m with focus_manager :=
      { m.focus_manager with
          window_history := some handle :: m.focus_manager.window_history.take 10 } }

/-- focus_window_by_handle_work — resolve the handle against the window
list; unknown or unmanaged windows fail returning none; otherwise a
WindowTakeFocus action is pushed unconditionally (even when the window
is already focused), and the window history is pushed only when the
target differs from the current focus. -/
def focus_window_by_handle_work (m : Manager) (handle : Nat) : Manager × Option Window :=
  match m.windows.find? (fun w => decide (w.handle = handle)) with
  | none => (m, none)
  | some found =>
      if found.is_unmanaged then (m, none)
      else
        let m1 := { m with actions := m.actions ++ [DisplayAction.WindowTakeFocus found] }
        match m1.focused_window with
        | some fw =>
            if fw.handle = handle then (m1, some found)
            else (window_history_push m1 handle, some found)
        | none => (window_history_push m1 handle, some found)

/-- update_current_tags — push a SetCurrentTags action for the first
tag of the focused workspace, when both exist. -/
def update_current_tags (m : Manager) : Manager :=
  match m.focused_workspace with
  | some workspace =>
      match workspace.tags.head? with
      | some tag => { m with actions := m.actions ++ [DisplayAction.SetCurrentTags tag] }
      | none => m
  | none => m

/-- focus_window — the cascading part: after the handle work succeeds,
find the workspace displaying the window and the tag shared with it,
then focus that workspace and tag. -/
def focus_window (m : Manager) (handle : Nat) : Manager × Bool :=
  match focus_window_by_handle_work m handle with
  | (m1, none) => (m1, false)
  | (m1, some window) =>
      let pair : Option String × Option (Option Int) :=
        match m1.workspaces.find? (fun ws => ws.is_displaying window) with
        | some ws => (ws.tags.find? (fun t => window.has_tag t), some ws.id)
        | none => (none, none)
      let m2 := match pair.2 with
        | some workspace_id => (focus_workspace_work m1 workspace_id).1
        | none => m1
      let m3 := match pair.1 with
        | some tag => (focus_tag_work m2 tag).1
        | none => m2
      (m3, true)

/-- focus_workspace — when the workspace-history work succeeds, focus
every tag the workspace displays and emit the current-tags action. -/
def focus_workspace (m : Manager) (workspace : Workspace) : Manager × Bool :=
  match focus_workspace_work m workspace.id with
  | (m1, true) =>
      let m2 := workspace.tags.foldl (fun acc t => (focus_tag_work acc t).1) m1
      (update_current_tags m2, true)
  | (m1, false) => (m1, false)

/-- The per-policy window restoration block of focus_tag: under Sloppy
the FocusWindowUnderCursor action is pushed; under the explicit policy
the tag's last-focused window is restored when recorded, else the first
window managed by the first workspace showing the tag. -/
def focus_tag_restore (m2 : Manager) (tag : String) (to_focus : List Workspace) :
    Manager :=
  if m2.focus_manager.behaviour = FocusBehaviour.Sloppy then
    { m2 with actions := m2.actions ++ [DisplayAction.FocusWindowUnderCursor] }
  else
    match m2.focus_manager.tags_last_window.lookup tag with
    | some handle => (focus_window_by_handle_work m2 handle).1
    | none =>
        match to_focus.head? with
        | some ws =>
            match (m2.windows.find? (fun w => ws.is_managed w)).map
                (fun w => w.handle) with
            | some h => (focus_window_by_handle_work m2 h).1
            | none => m2
        | none => m2

/-- The final block of focus_tag: unfocus the last window when the
target tag is not among its tags — push the Unfocus action and push
none onto the window history (with no preceding truncation in the
source). -/
def focus_tag_unfocus (m3 : Manager) (tag : String) : Manager :=
  match m3.focused_window with
  | some window =>
      if tag ∈ window.tags then m3
      else
        { m3 with
            actions := m3.actions ++ [DisplayAction.Unfocus],
            focus_manager :=
              { m3.focus_manager with
                  window_history := none :: m3.focus_manager.window_history } }
  | none => m3

/-- focus_tag — the tag-history work, then focusing every workspace
displaying the tag, then the per-policy window restoration, then the
unfocus step when the focused window does not belong to the tag. -/
def focus_tag (m : Manager) (tag : String) : Manager × Bool :=
  match focus_tag_work m tag with
  | (m1, false) => (m1, false)
  | (m1, true) =>
      let to_focus := m1.workspaces.filter (fun w => w.has_tag tag)
      let m2 := to_focus.foldl (fun acc ws => (focus_workspace_work acc ws.id).1) m1
      (focus_tag_unfocus (focus_tag_restore m2 tag to_focus) tag, true)

/-- validate_focus_at — nothing to do when no window is focused; when a
focusable window covers the point and differs from the current focus,
focus it; otherwise no change. -/
def validate_focus_at (m : Manager) (x y : Int) : Manager × Bool :=
  match m.focused_window with
  | none => (m, false)
  | some current =>
      match (m.windows.filter (fun w => w.can_focus)).find?
          (fun w => w.contains_point x y) with
      | some window =>
          if current.handle = window.handle then (m, false)
          else focus_window m window.handle
      | none => (m, false)

/-- distance — the source computes the floor of the f64 square root of
the squared Euclidean distance from the point to the window center.
For the i32 coordinate magnitudes involved this floor equals the
integer square root, which is how it is embedded. -/
def distance (w : Window) (x y : Int) : Int :=
  let c := w.calculated_xyhw.center
  Int.ofNat (Nat.sqrt ((c.1 - x) * (c.1 - x) + (c.2 - y) * (c.2 - y)).toNat)

/-- focus_closest_window — in the workspace containing the point, sort
the focusable managed windows by distance with Rust's stable sort
(embedded as the stable insertionSort on the distance key, which ties
in favour of the earlier element) and focus the first. -/
def focus_closest_window (m : Manager) (x y : Int) : Manager × Bool :=
  match m.workspaces.find? (fun ws => ws.contains_point x y) with
  | none => (m, false)
  | some ws =>
      let dists : List (Int × Window) :=
        (m.windows.filter (fun w => ws.is_managed w && w.can_focus)).map
          (fun w => (distance w x y, w))
      let sorted := dists.insertionSort (fun a b => a.1 ≤ b.1)
      match sorted.head? with
      | some first => focus_window m first.2.handle
      | none => (m, false)

/-- move_focus_to_point — focus the focusable window containing the
point when one exists, else fall back to the closest window. -/
def move_focus_to_point (m : Manager) (x y : Int) : Manager × Bool :=
  match ((m.windows.filter (fun w => w.can_focus)).find?
      (fun w => w.contains_point x y)).map (fun w => w.handle) with
  | some found => focus_window m found
  | none => focus_closest_window m x y

/-- focus_workspace_under_cursor — focus the workspace containing the
point when it differs from the focused one. -/
def focus_workspace_under_cursor (m : Manager) (x y : Int) : Manager × Bool :=
  let focused_id : Option Int :=
    match m.focused_workspace with
    | some fws => fws.id
    | none => none
  match m.workspaces.find?
      (fun ws => ws.contains_point x y && decide (ws.id ≠ focused_id)) with
  | some w => focus_workspace m w
  | none => (m, false)

/-! ## State socket broadcaster (state_socket.rs)

The broadcaster's peer list and last serialized state live behind one
mutex, and every mutation happens while it is held, so the observable
behaviour is the sequential state machine below. A peer is embedded as
its id plus the list of snapshot lines it has received; the write
success of the underlying UnixStream is abstracted as the oracle
ok : peer id → line → Bool. Serialization of the Manager (serde_json,
outside src/) is abstracted: a notification carries the serialized
snapshot line (newline already appended, as the source pushes one
before comparing). -/

structure Peer where
  id : Nat
  received : List String
  deriving DecidableEq

/-- The mutex-protected state of the socket: the peer slots (a slot
becomes none when a write to it failed) and the last serialized state
sent. Default construction gives no peers and the empty string. -/
structure SockState where
  peers : List (Option Peer)
  last_state : String
  deriving DecidableEq

/-- One peer slot during a broadcast: a live peer receives the line
when its write succeeds and is dropped (the slot is vacated) when the
write fails. -/
def broadcast_slot (ok : Nat → String → Bool) (line : String)
    (slot : Option Peer) : Option Peer :=
  match slot with
  | some peer =>
      if ok peer.id line then some { peer with received := peer.received ++ [line] }
      else none
  | none => none

/-- StateSocket::write_manager_state while listening: when the
serialized line differs from the last one sent, vacated slots are
retained away, the line is written to every live peer (failures vacate
the slot), and the line becomes the last state; otherwise nothing
happens. -/
def write_manager_state (ok : Nat → String → Bool) (st : SockState)
    (line : String) : SockState :=
  if line = st.last_state then st
  else
    { peers := (st.peers.filter (fun p => p.isSome)).map (broadcast_slot ok line),
      last_state := line }

/-- The accept loop of build_listener: a newly connected peer is first
written the last state; only when that write succeeds is it added to
the peer list. -/
def accept_peer (ok : Nat → String → Bool) (st : SockState) (id : Nat) : SockState :=
  if ok id st.last_state then
    { st with peers := st.peers ++ [some { id := id, received := [st.last_state] }] }
  else st

/-! ## Child process table (child_process.rs) -/

/-- Modelled from std: a spawned child process. id is the OS pid
(Child::id); token abstracts the identity of the underlying process
object so that two distinct children with the same pid can be told
apart. -/
structure Child where
  id : Nat
  token : Nat
  deriving DecidableEq

/-- Modelled from std: HashMap::insert — replace the value when the
key is present, add the binding when it is absent. The map is embedded
as an association list with distinct keys. -/
def map_insert (l : List (Nat × Child)) (k : Nat) (v : Child) : List (Nat × Child) :=
  match l with
  | [] => [(k, v)]
  | (k0, v0) :: rest =>
      if k0 = k then (k, v) :: rest else (k0, v0) :: map_insert rest k v

/-- Children — the process table, a map from OS pid to the live child. -/
structure Children where
  inner : List (Nat × Child)
  deriving DecidableEq

/-- Children::len. -/
def Children.len (c : Children) : Nat := c.inner.length

/-- Children::insert — HashMap::insert on the pid, returning
is_none of the previous binding: true when the pid was untracked. -/
def Children.insert (c : Children) (child : Child) : Children × Bool :=
  (⟨map_insert c.inner child.id child⟩, (c.inner.lookup child.id).isNone)

/-- The at-most-one-entry-per-pid invariant of the table. -/
def Children.pids_distinct (c : Children) : Prop :=
  (c.inner.map Prod.fst).Nodup

/-! ## Focus operation sequences and history invariants -/

/-- The public focus operations of focus_handler.rs, as one event
vocabulary for reasoning about operation sequences. -/
inductive FocusOp where
  | focusWorkspaceOp (ws : Workspace)
  | focusWindowOp (handle : Nat)
  | focusTagOp (tag : String)
  | validateFocusAtOp (x y : Int)
  | moveFocusToPointOp (x y : Int)
  | focusWorkspaceUnderCursorOp (x y : Int)

/-- Apply one focus operation to the manager. -/
def FocusOp.apply (m : Manager) : FocusOp → Manager
  | .focusWorkspaceOp ws => (focus_workspace m ws).1
  | .focusWindowOp h => (focus_window m h).1
  | .focusTagOp t => (focus_tag m t).1
  | .validateFocusAtOp x y => (validate_focus_at m x y).1
  | .moveFocusToPointOp x y => (move_focus_to_point m x y).1
  | .focusWorkspaceUnderCursorOp x y => (focus_workspace_under_cursor m x y).1

/-- Apply a sequence of focus operations left to right. -/
def apply_ops (m : Manager) (ops : List FocusOp) : Manager :=
  ops.foldl FocusOp.apply m

/-- The invariant the window history actually satisfies: at most 11
entries, except that the untruncated unfocus push of none in focus_tag
can reach 12 — and then the front is none. -/
def WindowHistoryInv (h : List (Option Nat)) : Prop :=
  h.length ≤ 11 ∨ (h.length = 12 ∧ h.head? = some none)

/-- The history bound the code maintains: workspace and tag histories
hold at most 11 entries (truncation to 10 happens before each push,
so the configured cap of 10 is transiently overshot by one), and the
window history satisfies WindowHistoryInv. -/
def HistoryBound (m : Manager) : Prop :=
  m.focus_manager.workspace_history.length ≤ 11 ∧
  m.focus_manager.tag_history.length ≤ 11 ∧
  WindowHistoryInv m.focus_manager.window_history

/-! ## Concrete fixtures used by witnesses and counterexamples -/

/-- A workspace covering the square around the origin, displaying
tag 1. -/
def test_workspace : Workspace := ⟨some 0, ["1"], ⟨-50, -50, 100, 100⟩⟩

/-- A zero-sized managed focusable window on tag 1 whose center (3, 0)
is at distance 3 from the origin. -/
def test_window : Window := ⟨1, ["1"], false, false, ⟨3, 0, 0, 0⟩⟩

/-- A second managed focusable window on tag 1 whose center (0, 5) is
at distance 5 from the origin. -/
def test_window2 : Window := ⟨2, ["1"], false, false, ⟨0, 5, 0, 0⟩⟩

/-- A manager in which test_window is focused, its workspace and tag
current. -/
def test_manager : Manager :=
  ⟨[test_window], [test_workspace],
   [], ⟨FocusBehaviour.Sloppy, [0], [some 1], ["1"], []⟩, 0⟩

/-- A manager with both test windows and completely empty focus
histories. -/
def fresh_manager : Manager :=
  ⟨[test_window2, test_window], [test_workspace],
   [], ⟨FocusBehaviour.Sloppy, [], [], [], []⟩, 0⟩

/-- Eleven distinct tag names. -/
def eleven_tags : List String :=
  ["t1", "t2", "t3", "t4", "t5", "t6", "t7", "t8", "t9", "t10", "t11"]

/-! ## Arithmetic of the wrapping limiter subtraction -/

theorem two_pow_64_eq : (2 : Nat) ^ 64 = 18446744073709551616 := by norm_num

theorem sub64_eq_sub (a b : Nat) (hb : b ≤ a) (hlt : a - b < 2 ^ 64)
    (hb64 : b < 2 ^ 64) : sub64 a b = a - b := by
  unfold sub64
  rw [Nat.mod_eq_of_lt hb64]
  rw [two_pow_64_eq] at hlt hb64 ⊢
  omega

theorem wrap64_eq (a : Nat) (ha : a < 2 ^ 64) : wrap64 a = a := by
  unfold wrap64
  exact Nat.mod_eq_of_lt ha

/-- Claim C2: move/resize events are rate limited by the integer
threshold 1000 / 60 against the last-applied timestamp: an event whose
wrapped distance to the limiter does not exceed the threshold is
dropped, returning no-redraw and leaving the manager (in particular the
limiter timestamp) unchanged; an event beyond the threshold is applied,
running the inner handler and setting the limiter to the event time.
Concretely, with the limiter at 0, a MoveWindow event at 1000 is
applied, a following one at 1010 is dropped, and from a limiter at
1000 an event at 1020 is applied. -/
theorem move_window_rate_limited
    (inner inner1 inner2 inner3 : Manager → Manager × Bool)
    (any m m0 : Manager) (t : Nat)
    (hm : m.frame_rate_limitor = 0) (hm0 : m0.frame_rate_limitor = 1000) :
    (sub64 t any.frame_rate_limitor ≤ 1000 / 60 →
      process_move_window inner any t = (any, false)) ∧
    (1000 / 60 < sub64 t any.frame_rate_limitor →
      process_move_window inner any t
        = ({ (inner any).1 with frame_rate_limitor := wrap64 t }, (inner any).2)) ∧
    process_move_window inner1 m 1000
      = ({ (inner1 m).1 with frame_rate_limitor := 1000 }, (inner1 m).2) ∧
    process_move_window inner2 (process_move_window inner1 m 1000).1 1010
      = ((process_move_window inner1 m 1000).1, false) ∧
    process_move_window inner3 m0 1020
      = ({ (inner3 m0).1 with frame_rate_limitor := 1020 }, (inner3 m0).2) := by
  have hdrop : ∀ (f : Manager → Manager × Bool) (mm : Manager) (tt : Nat),
      sub64 tt mm.frame_rate_limitor ≤ 1000 / 60 →
      process_move_window f mm tt = (mm, false) := by
    intro f mm tt hle
    unfold process_move_window
    rw [if_neg (by omega)]
  have happly : ∀ (f : Manager → Manager × Bool) (mm : Manager) (tt : Nat),
      1000 / 60 < sub64 tt mm.frame_rate_limitor →
      process_move_window f mm tt
        = ({ (f mm).1 with frame_rate_limitor := wrap64 tt }, (f mm).2) := by
    intro f mm tt hlt
    unfold process_move_window
    rw [if_pos hlt]
  have h1000 : sub64 1000 0 = 1000 := by
    rw [sub64_eq_sub 1000 0 (by omega) (by rw [two_pow_64_eq]; omega)
      (by rw [two_pow_64_eq]; omega)]
  have hfirst : process_move_window inner1 m 1000
      = ({ (inner1 m).1 with frame_rate_limitor := 1000 }, (inner1 m).2) := by
    have := happly inner1 m 1000 (by rw [hm, h1000]; omega)
    rw [this, wrap64_eq 1000 (by rw [two_pow_64_eq]; omega)]
  refine ⟨hdrop inner any t, happly inner any t, hfirst, ?_, ?_⟩
  · apply hdrop
    rw [hfirst]
    have : sub64 1010 1000 = 10 := by
      rw [sub64_eq_sub 1010 1000 (by omega) (by rw [two_pow_64_eq]; omega)
        (by rw [two_pow_64_eq]; omega)]
    simp [this]
  · have : sub64 1020 1000 = 20 := by
      rw [sub64_eq_sub 1020 1000 (by omega) (by rw [two_pow_64_eq]; omega)
        (by rw [two_pow_64_eq]; omega)]
    have h := happly inner3 m0 1020 (by rw [hm0, this]; omega)
    rw [h, wrap64_eq 1020 (by rw [two_pow_64_eq]; omega)]

/-- Witness for C2 at a concrete manager with the limiter at 0: the
event at 1000 is applied, the one at 1010 is dropped with no redraw,
and from a limiter at 1000 the event at 1020 is applied. -/
theorem move_window_rate_limited_witness :
    process_move_window (fun mm => (mm, true)) fresh_manager 1000
      = ({ fresh_manager with frame_rate_limitor := 1000 }, true) ∧
    process_move_window (fun mm => (mm, true))
        (process_move_window (fun mm => (mm, true)) fresh_manager 1000).1 1010
      = ((process_move_window (fun mm => (mm, true)) fresh_manager 1000).1, false) ∧
    process_move_window (fun mm => (mm, true))
        { fresh_manager with frame_rate_limitor := 1000 } 1020
      = ({ fresh_manager with frame_rate_limitor := 1020 }, true) := by
  have h := move_window_rate_limited (fun mm => (mm, true)) (fun mm => (mm, true))
    (fun mm => (mm, true)) (fun mm => (mm, true)) fresh_manager fresh_manager
    { fresh_manager with frame_rate_limitor := 1000 } 0 rfl rfl
  exact ⟨h.2.2.1, h.2.2.2.1, h.2.2.2.2⟩

/-- Claim C10: MoveWindow and ResizeWindow share the single
frame_rate_limitor: after a move at timestamp t is applied, a resize
whose timestamp is between t and t plus the threshold is dropped —
it returns no-redraw and leaves the manager unchanged — and
symmetrically an applied resize suppresses a following move within the
threshold. -/
theorem move_resize_share_limiter
    (inner1 inner2 : Manager → Manager × Bool) (m : Manager) (t t2 : Nat)
    (ht : t < 2 ^ 64)
    (happlied : 1000 / 60 < sub64 t m.frame_rate_limitor)
    (hle : t ≤ t2) (hnear : t2 ≤ t + 1000 / 60) :
    (process_move_window inner1 m t).1.frame_rate_limitor = t ∧
    process_resize_window inner2 (process_move_window inner1 m t).1 t2
      = ((process_move_window inner1 m t).1, false) ∧
    (process_resize_window inner1 m t).1.frame_rate_limitor = t ∧
    process_move_window inner2 (process_resize_window inner1 m t).1 t2
      = ((process_resize_window inner1 m t).1, false) := by
  have hs : sub64 t2 t = t2 - t := by
    refine sub64_eq_sub t2 t hle ?_ ht
    rw [two_pow_64_eq] at ht ⊢
    omega
  have hmv : (process_move_window inner1 m t).1.frame_rate_limitor = t := by
    unfold process_move_window
    rw [if_pos happlied]
    exact wrap64_eq t ht
  have hrs : (process_resize_window inner1 m t).1.frame_rate_limitor = t := by
    unfold process_resize_window
    rw [if_pos happlied]
    exact wrap64_eq t ht
  refine ⟨hmv, ?_, hrs, ?_⟩
  · unfold process_resize_window
    rw [if_neg ?_]
    rw [hmv, hs]
    omega
  · unfold process_move_window
    rw [if_neg ?_]
    rw [hrs, hs]
    omega

/-- Witness for C10: an applied move at 1000 suppresses a resize at
1010, and an applied resize at 1000 suppresses a move at 1010. -/
theorem move_resize_share_limiter_witness :
    process_resize_window (fun mm => (mm, true))
        (process_move_window (fun mm => (mm, true)) fresh_manager 1000).1 1010
      = ((process_move_window (fun mm => (mm, true)) fresh_manager 1000).1, false) ∧
    process_move_window (fun mm => (mm, true))
        (process_resize_window (fun mm => (mm, true)) fresh_manager 1000).1 1010
      = ((process_resize_window (fun mm => (mm, true)) fresh_manager 1000).1, false) := by
  have h := move_resize_share_limiter (fun mm => (mm, true)) (fun mm => (mm, true))
    fresh_manager 1000 1010 (by rw [two_pow_64_eq]; omega)
    (by
      have : sub64 1000 0 = 1000 := by
        rw [sub64_eq_sub 1000 0 (by omega) (by rw [two_pow_64_eq]; omega)
          (by rw [two_pow_64_eq]; omega)]
      show 1000 / 60 < sub64 1000 fresh_manager.frame_rate_limitor
      rw [show fresh_manager.frame_rate_limitor = 0 from rfl, this]
      omega)
    (by omega) (by omega)
  exact ⟨h.2.1, h.2.2.2⟩

/-! ## Child process table -/

theorem map_insert_lookup_self (l : List (Nat × Child)) (k : Nat) (v : Child) :
    (map_insert l k v).lookup k = some v := by
  induction l with
  | nil => simp [map_insert, List.lookup]
  | cons p rest ih =>
      obtain ⟨k0, v0⟩ := p
      by_cases hk : k0 = k
      · simp [map_insert, hk, List.lookup]
      · have hne : (k == k0) = false := by
          simp [Ne.symm hk]
        simp [map_insert, hk, List.lookup, hne, ih]

theorem map_insert_keys_subset (l : List (Nat × Child)) (k : Nat) (v : Child) :
    ∀ x ∈ (map_insert l k v).map Prod.fst, x = k ∨ x ∈ l.map Prod.fst := by
  induction l with
  | nil => simp [map_insert]
  | cons p rest ih =>
      obtain ⟨k0, v0⟩ := p
      by_cases hk : k0 = k
      · intro x hx
        simp only [map_insert, if_pos hk, List.map_cons, List.mem_cons] at hx
        rcases hx with h | h
        · exact Or.inl h
        · exact Or.inr (by simp [h])
      · intro x hx
        simp only [map_insert, if_neg hk, List.map_cons, List.mem_cons] at hx
        rcases hx with h | h
        · exact Or.inr (by simp [h])
        · rcases ih x h with h1 | h1
          · exact Or.inl h1
          · exact Or.inr (by simp [h1])

theorem map_insert_keys_nodup (l : List (Nat × Child)) (k : Nat) (v : Child)
    (hn : (l.map Prod.fst).Nodup) : ((map_insert l k v).map Prod.fst).Nodup := by
  induction l with
  | nil => simp [map_insert]
  | cons p rest ih =>
      obtain ⟨k0, v0⟩ := p
      simp only [List.map_cons, List.nodup_cons] at hn
      by_cases hk : k0 = k
      · subst hk
        simp only [map_insert]
        rw [if_pos trivial, List.map_cons, List.nodup_cons]
        exact hn
      · simp only [map_insert]
        rw [if_neg hk, List.map_cons, List.nodup_cons]
        refine ⟨?_, ih hn.2⟩
        intro hmem
        rcases map_insert_keys_subset rest k v k0 hmem with h | h
        · exact hk h
        · exact hn.1 h

/-- Counterexample to claim C8 as stated: inserting a second child with
an already-tracked pid does return false, but it does not leave the
previously tracked entry in place — the table afterwards holds the new
child for that pid, not the old one. -/
theorem children_insert_replaces_counterexample :
    (Children.insert ⟨[(5, ⟨5, 0⟩)]⟩ ⟨5, 1⟩).2 = false ∧
    (Children.insert ⟨[(5, ⟨5, 0⟩)]⟩ ⟨5, 1⟩).1.inner.lookup 5 = some ⟨5, 1⟩ ∧
    (Children.insert ⟨[(5, ⟨5, 0⟩)]⟩ ⟨5, 1⟩).1.inner.lookup 5 ≠ some ⟨5, 0⟩ := by
  refine ⟨rfl, rfl, ?_⟩
  decide

/-- Claim C8 as amended: inserting a child whose pid is already tracked
returns false, but the new child replaces the previous entry (HashMap
insert semantics) rather than being rejected; inserting a child with an
untracked pid returns true; and the table never holds two entries for
one pid. -/
theorem children_insert_amended (c : Children) (child : Child) :
    ((c.inner.lookup child.id).isSome = true →
      (c.insert child).2 = false ∧
      (c.insert child).1.inner.lookup child.id = some child) ∧
    ((c.inner.lookup child.id).isNone = true → (c.insert child).2 = true) ∧
    (c.pids_distinct → (c.insert child).1.pids_distinct) := by
  refine ⟨?_, ?_, ?_⟩
  · intro hsome
    refine ⟨?_, map_insert_lookup_self c.inner child.id child⟩
    show (c.inner.lookup child.id).isNone = false
    cases hx : c.inner.lookup child.id with
    | none => rw [hx] at hsome; simp at hsome
    | some v => rfl
  · intro hnone
    exact hnone
  · intro hd
    exact map_insert_keys_nodup c.inner child.id child hd

/-- Witness for the amended C8: a table tracking pid 5 rejects the
second insert for pid 5 with false and keeps exactly the new child;
the untracked pid 7 is inserted with true. -/
theorem children_insert_amended_witness :
    (Children.insert ⟨[(5, ⟨5, 0⟩)]⟩ ⟨5, 1⟩).2 = false ∧
    (Children.insert ⟨[(5, ⟨5, 0⟩)]⟩ ⟨5, 1⟩).1.inner.lookup 5 = some ⟨5, 1⟩ ∧
    (Children.insert ⟨[(5, ⟨5, 0⟩)]⟩ ⟨7, 2⟩).2 = true := by
  have h1 := children_insert_amended ⟨[(5, ⟨5, 0⟩)]⟩ ⟨5, 1⟩
  have h2 := children_insert_amended ⟨[(5, ⟨5, 0⟩)]⟩ ⟨7, 2⟩
  have hs := h1.1 (by decide)
  exact ⟨hs.1, hs.2, h2.2.1 (by decide)⟩

/-! ## validate_focus_at with no focused window (claim C9) -/

/-- Claim C9: when the front of the window history is absent or holds
none (no window currently focused), validate_focus_at returns false and
leaves the manager untouched — no history mutation, no action — even
when a focusable window covers the point. -/
theorem validate_focus_at_unfocused (m : Manager) (x y : Int)
    (h : m.focus_manager.window_history.head? = none ∨
         m.focus_manager.window_history.head? = some none) :
    validate_focus_at m x y = (m, false) := by
  have hfw : m.focused_window = none := by
    unfold Manager.focused_window
    rcases h with h | h <;> rw [h] <;> rfl
  unfold validate_focus_at
  rw [hfw]

/-- Witness for C9 at a concrete manager with an empty window history
and a focusable window containing the query point. -/
theorem validate_focus_at_unfocused_witness :
    validate_focus_at fresh_manager 3 0 = (fresh_manager, false) ∧
    test_window.can_focus = true ∧ test_window.contains_point 3 0 = true ∧
    test_window ∈ fresh_manager.windows := by
  refine ⟨validate_focus_at_unfocused fresh_manager 3 0 (Or.inl rfl), ?_, ?_, ?_⟩
  · decide
  · decide
  · decide

/-! ## State socket broadcaster (claim C7) -/

theorem broadcast_live_peers (ok : Nat → String → Bool) (line : String) :
    ∀ l : List (Option Peer),
      ((l.filter (fun p => p.isSome)).map (broadcast_slot ok line)).filterMap
          (fun p => p)
        = ((l.filterMap (fun p => p)).filter (fun p => ok p.id line)).map
            (fun p => { p with received := p.received ++ [line] }) := by
  intro l
  induction l with
  | nil => rfl
  | cons slot rest ih =>
      cases slot with
      | none => simpa using ih
      | some peer =>
          by_cases hok : ok peer.id line = true
          · simp [broadcast_slot, hok, ih]
          · simp only [Bool.not_eq_true] at hok
            simp [broadcast_slot, hok, ih]

/-- Claim C7: the broadcaster writes a serialized state to peers only
when it differs byte-for-byte from the last one sent (an identical
notification changes nothing); two consecutive notifications with the
same serialized state deliver at most one snapshot — the second write
is the identity; on a differing write, the live peers afterwards are
exactly the previously live ones whose write succeeded, each having
received the new line (a peer whose write fails is dropped); and a
newly accepted peer has immediately received the most recent
snapshot. -/
theorem state_socket_broadcast (ok : Nat → String → Bool) (st : SockState)
    (line : String) (id : Nat) :
    (line = st.last_state → write_manager_state ok st line = st) ∧
    (write_manager_state ok (write_manager_state ok st line) line
      = write_manager_state ok st line) ∧
    (line ≠ st.last_state →
      (write_manager_state ok st line).peers.filterMap (fun p => p)
        = ((st.peers.filterMap (fun p => p)).filter (fun p => ok p.id line)).map
            (fun p => { p with received := p.received ++ [line] }) ∧
      (write_manager_state ok st line).last_state = line) ∧
    (ok id st.last_state = true →
      (accept_peer ok st id).peers
        = st.peers ++ [some { id := id, received := [st.last_state] }]) := by
  have hsame : line = st.last_state → write_manager_state ok st line = st := by
    intro h
    unfold write_manager_state
    rw [if_pos h]
  have hdiff : line ≠ st.last_state →
      write_manager_state ok st line
        = { peers := (st.peers.filter (fun p => p.isSome)).map (broadcast_slot ok line),
            last_state := line } := by
    intro h
    unfold write_manager_state
    rw [if_neg h]
  refine ⟨hsame, ?_, ?_, ?_⟩
  · by_cases h : line = st.last_state
    · rw [hsame h, hsame h]
    · rw [hdiff h]
      unfold write_manager_state
      rw [if_pos rfl]
  · intro h
    refine ⟨?_, by rw [hdiff h]⟩
    rw [hdiff h]
    exact broadcast_live_peers ok line st.peers
  · intro h
    unfold accept_peer
    rw [if_pos h]

/-- Witness for C7 with one live peer that accepts all writes and one
that fails: a repeated identical write is the identity, the failing
peer is dropped while the accepting one receives the line, and a newly
accepted peer holds the latest snapshot. -/
theorem state_socket_broadcast_witness :
    (write_manager_state (fun pid _ => pid == 1)
        (write_manager_state (fun pid _ => pid == 1)
          ⟨[some ⟨1, ["a"]⟩, some ⟨2, ["a"]⟩], "a"⟩ "b") "b"
      = write_manager_state (fun pid _ => pid == 1)
          ⟨[some ⟨1, ["a"]⟩, some ⟨2, ["a"]⟩], "a"⟩ "b") ∧
    ((write_manager_state (fun pid _ => pid == 1)
        ⟨[some ⟨1, ["a"]⟩, some ⟨2, ["a"]⟩], "a"⟩ "b").peers.filterMap (fun p => p)
      = [⟨1, ["a", "b"]⟩]) ∧
    ((accept_peer (fun pid _ => pid == 1) ⟨[], "a"⟩ 1).peers
      = [some ⟨1, ["a"]⟩]) := by
  have h := state_socket_broadcast (fun pid _ => pid == 1)
    ⟨[some ⟨1, ["a"]⟩, some ⟨2, ["a"]⟩], "a"⟩ "b" 1
  have h2 := state_socket_broadcast (fun pid _ => pid == 1) ⟨[], "a"⟩ "b" 1
  refine ⟨h.2.1, ?_, ?_⟩
  · rw [(h.2.2.1 (by decide)).1]
    decide
  · rw [h2.2.2.2 (by decide)]
    rfl

/-! ## Shape lemmas: which fields each focus helper can touch -/

theorem focus_workspace_push_shape (m : Manager) (i : Option Int) :
    ∃ hist, (focus_workspace_push m i).1 =
        { m with focus_manager := { m.focus_manager with workspace_history := hist } } ∧
      (hist = m.focus_manager.workspace_history.take 10 ∨
       ∃ k, hist = k :: m.focus_manager.workspace_history.take 10) := by
  unfold focus_workspace_push
  cases hidx : m.workspaces.findIdx? (fun x => decide (x.id = i)) with
  | none => exact ⟨_, rfl, Or.inl rfl⟩
  | some k => exact ⟨_, rfl, Or.inr ⟨k, rfl⟩⟩

theorem focus_workspace_work_shape (m : Manager) (i : Option Int) :
    ∃ hist, (focus_workspace_work m i).1 =
        { m with focus_manager := { m.focus_manager with workspace_history := hist } } ∧
      (hist = m.focus_manager.workspace_history ∨
       hist = m.focus_manager.workspace_history.take 10 ∨
       ∃ k, hist = k :: m.focus_manager.workspace_history.take 10) := by
  unfold focus_workspace_work
  cases hfw : m.focused_workspace with
  | none =>
      obtain ⟨hist, he, hc⟩ := focus_workspace_push_shape m i
      exact ⟨hist, he, Or.inr hc⟩
  | some fws =>
      dsimp only
      by_cases h : fws.id = i
      · rw [if_pos h]
        exact ⟨m.focus_manager.workspace_history, rfl, Or.inl rfl⟩
      · rw [if_neg h]
        obtain ⟨hist, he, hc⟩ := focus_workspace_push_shape m i
        exact ⟨hist, he, Or.inr hc⟩

theorem focus_tag_work_shape (m : Manager) (t : String) :
    ∃ hist, (focus_tag_work m t).1 =
        { m with focus_manager := { m.focus_manager with tag_history := hist } } ∧
      (hist = m.focus_manager.tag_history ∨
       hist = t :: m.focus_manager.tag_history.take 10) := by
  unfold focus_tag_work
  cases hft : m.focus_manager.tag 0 with
  | none => exact ⟨_, rfl, Or.inr rfl⟩
  | some t0 =>
      dsimp only
      by_cases h : t0 = t
      · rw [if_pos h]
        exact ⟨m.focus_manager.tag_history, rfl, Or.inl rfl⟩
      · rw [if_neg h]
        exact ⟨_, rfl, Or.inr rfl⟩

theorem focus_window_by_handle_work_shape (m : Manager) (h : Nat) :
    ∃ acts hist, (focus_window_by_handle_work m h).1 =
        { m with actions := m.actions ++ acts,
                 focus_manager := { m.focus_manager with window_history := hist } } ∧
      (acts = [] ∨ ∃ w, acts = [DisplayAction.WindowTakeFocus w]) ∧
      (hist = m.focus_manager.window_history ∨
       hist = some h :: m.focus_manager.window_history.take 10) := by
  unfold focus_window_by_handle_work
  cases hf : m.windows.find? (fun w => decide (w.handle = h)) with
  | none => exact ⟨[], m.focus_manager.window_history, by simp, Or.inl rfl, Or.inl rfl⟩
  | some found =>
      dsimp only
      by_cases hu : found.is_unmanaged = true
      · rw [if_pos hu]
        exact ⟨[], m.focus_manager.window_history, by simp, Or.inl rfl, Or.inl rfl⟩
      · rw [if_neg hu]
        cases hfw : ({ m with actions :=
            m.actions ++ [DisplayAction.WindowTakeFocus found] } : Manager).focused_window with
        | none =>
            exact ⟨[DisplayAction.WindowTakeFocus found], _, rfl,
              Or.inr ⟨found, rfl⟩, Or.inr rfl⟩
        | some fw =>
            dsimp only
            by_cases hh : fw.handle = h
            · rw [if_pos hh]
              exact ⟨[DisplayAction.WindowTakeFocus found],
                m.focus_manager.window_history, rfl, Or.inr ⟨found, rfl⟩, Or.inl rfl⟩
            · rw [if_neg hh]
              exact ⟨[DisplayAction.WindowTakeFocus found], _, rfl,
                Or.inr ⟨found, rfl⟩, Or.inr rfl⟩

theorem update_current_tags_shape (m : Manager) :
    ∃ acts, update_current_tags m = { m with actions := m.actions ++ acts } := by
  unfold update_current_tags
  cases m.focused_workspace with
  | none => exact ⟨[], by simp⟩
  | some ws =>
      dsimp only
      cases ws.tags.head? with
      | none => exact ⟨[], by simp⟩
      | some t => exact ⟨[DisplayAction.SetCurrentTags t], rfl⟩

theorem fold_fww_shape (l : List Workspace) (m : Manager) :
    ∃ hist, l.foldl (fun acc ws => (focus_workspace_work acc ws.id).1) m =
        { m with focus_manager := { m.focus_manager with workspace_history := hist } } ∧
      (m.focus_manager.workspace_history.length ≤ 11 → hist.length ≤ 11) := by
  induction l generalizing m with
  | nil => exact ⟨m.focus_manager.workspace_history, rfl, fun h => h⟩
  | cons ws rest ih =>
      obtain ⟨h1, he1, hc1⟩ := focus_workspace_work_shape m ws.id
      obtain ⟨hist, he2, hlen⟩ := ih ((focus_workspace_work m ws.id).1)
      refine ⟨hist, ?_, ?_⟩
      · rw [List.foldl_cons, he2, he1]
      · intro hb
        apply hlen
        rw [he1]
        rcases hc1 with h | h | ⟨k, h⟩
        · simpa [h] using hb
        · simp only [h, List.length_take]
          omega
        · simp only [h, List.length_cons]
          have := List.length_take_le 10 m.focus_manager.workspace_history
          simp only [List.length_take] at this ⊢
          omega

theorem fold_ftw_shape (l : List String) (m : Manager) :
    ∃ hist, l.foldl (fun acc t => (focus_tag_work acc t).1) m =
        { m with focus_manager := { m.focus_manager with tag_history := hist } } ∧
      (m.focus_manager.tag_history.length ≤ 11 → hist.length ≤ 11) := by
  induction l generalizing m with
  | nil => exact ⟨m.focus_manager.tag_history, rfl, fun h => h⟩
  | cons t rest ih =>
      obtain ⟨h1, he1, hc1⟩ := focus_tag_work_shape m t
      obtain ⟨hist, he2, hlen⟩ := ih ((focus_tag_work m t).1)
      refine ⟨hist, ?_, ?_⟩
      · rw [List.foldl_cons, he2, he1]
      · intro hb
        apply hlen
        rw [he1]
        rcases hc1 with h | h
        · simpa [h] using hb
        · simp only [h, List.length_cons]
          have := List.length_take_le 10 m.focus_manager.tag_history
          simp only [List.length_take] at this ⊢
          omega

theorem focus_window_of_none (m : Manager) (h : Nat) (m1 : Manager)
    (hb : focus_window_by_handle_work m h = (m1, none)) :
    focus_window m h = (m1, false) := by
  unfold focus_window
  rw [hb]

theorem focus_window_tail_shape (m : Manager) (h : Nat) (m1 : Manager) (w : Window)
    (hb : focus_window_by_handle_work m h = (m1, some w)) :
    ∃ wsh th, focus_window m h =
        ({ m1 with focus_manager :=
            { m1.focus_manager with workspace_history := wsh, tag_history := th } },
         true) ∧
      (wsh = m1.focus_manager.workspace_history ∨
       wsh = m1.focus_manager.workspace_history.take 10 ∨
       ∃ k, wsh = k :: m1.focus_manager.workspace_history.take 10) ∧
      (th = m1.focus_manager.tag_history ∨
       ∃ tg, th = tg :: m1.focus_manager.tag_history.take 10) := by
  unfold focus_window
  rw [hb]
  dsimp only
  cases hws : m1.workspaces.find? (fun ws => ws.is_displaying w) with
  | none =>
      exact ⟨m1.focus_manager.workspace_history, m1.focus_manager.tag_history,
        rfl, Or.inl rfl, Or.inl rfl⟩
  | some ws =>
      dsimp only
      obtain ⟨wsh, hwe, hwc⟩ := focus_workspace_work_shape m1 ws.id
      cases htg : ws.tags.find? (fun t => w.has_tag t) with
      | none =>
          refine ⟨wsh, m1.focus_manager.tag_history, ?_, hwc, Or.inl rfl⟩
          dsimp only
          rw [hwe]
      | some tg =>
          obtain ⟨th, hte, htc⟩ := focus_tag_work_shape ((focus_workspace_work m1 ws.id).1) tg
          refine ⟨wsh, th, ?_, hwc, ?_⟩
          · dsimp only
            rw [hte, hwe]
          · rw [hwe] at htc
            dsimp only at htc
            rcases htc with hc | hc
            · exact Or.inl hc
            · exact Or.inr ⟨tg, hc⟩

/-- Claim C6: re-focusing the already-current target is a no-op on the
corresponding history — focus_workspace on a workspace with the focused
id and focus_tag on the current tag return the manager unchanged with
false, and focus_window on the focused handle leaves the window history
unchanged in length and order. -/
theorem refocus_current_is_noop (m : Manager) (ws : Workspace) (h : Nat) (t : String) :
    ((∃ fws, m.focused_workspace = some fws ∧ fws.id = ws.id) →
      focus_workspace m ws = (m, false)) ∧
    ((∃ fw, m.focused_window = some fw ∧ fw.handle = h) →
      (focus_window m h).1.focus_manager.window_history
        = m.focus_manager.window_history) ∧
    (m.focus_manager.tag 0 = some t → focus_tag m t = (m, false)) := by
  refine ⟨?_, ?_, ?_⟩
  · rintro ⟨fws, hfw, hid⟩
    have hw : focus_workspace_work m ws.id = (m, false) := by
      unfold focus_workspace_work
      rw [hfw]
      dsimp only
      rw [if_pos hid]
    unfold focus_workspace
    rw [hw]
  · rintro ⟨fw, hfw, hh⟩
    have hstep : ∃ hd, (m.focus_manager.window_history.head?.bind id) = some hd ∧
        m.windows.find? (fun w => decide (w.handle = hd)) = some fw :=
      Option.bind_eq_some.mp hfw
    obtain ⟨hd, hhd, hfind0⟩ := hstep
    have hfh : fw.handle = hd := by
      have := List.find?_some hfind0
      simpa using this
    have hdh : hd = h := by rw [← hfh, hh]
    rw [hdh] at hfind0
    by_cases hu : fw.is_unmanaged = true
    · have hb : focus_window_by_handle_work m h = (m, none) := by
        unfold focus_window_by_handle_work
        rw [hfind0]
        dsimp only
        rw [if_pos hu]
      rw [focus_window_of_none m h m hb]
    · have hm1 : ({ m with actions :=
          m.actions ++ [DisplayAction.WindowTakeFocus fw] } : Manager).focused_window
          = m.focused_window := rfl
      have hb : focus_window_by_handle_work m h
          = ({ m with actions := m.actions ++ [DisplayAction.WindowTakeFocus fw] },
             some fw) := by
        unfold focus_window_by_handle_work
        rw [hfind0]
        dsimp only
        rw [if_neg hu, hm1, hfw]
        dsimp only
        rw [if_pos hh]
      obtain ⟨wsh, th, he, _, _⟩ := focus_window_tail_shape m h _ fw hb
      rw [he]
  · intro hcur
    have hw : focus_tag_work m t = (m, false) := by
      unfold focus_tag_work
      rw [hcur]
      dsimp only
      rw [if_pos rfl]
    unfold focus_tag
    rw [hw]

/-- Witness for C6: on the concrete manager whose workspace 0, window 1
and tag 1 are current, re-focusing each leaves the corresponding
history exactly as it was. -/
theorem refocus_current_is_noop_witness :
    focus_workspace test_manager test_workspace = (test_manager, false) ∧
    (focus_window test_manager 1).1.focus_manager.window_history
      = test_manager.focus_manager.window_history ∧
    focus_tag test_manager "1" = (test_manager, false) := by
  have h := refocus_current_is_noop test_manager test_workspace 1 "1"
  exact ⟨h.1 ⟨test_workspace, rfl, rfl⟩, h.2.1 ⟨test_window, rfl, rfl⟩, h.2.2 rfl⟩

/-- Claim C3: focus_window on a handle resolving to a managed window
emits exactly one WindowTakeFocus action — even when that window is
already the focused one — and mutates the window history only when the
target differs from the current focus. -/
theorem focus_window_takes_focus (m : Manager) (h : Nat) (w : Window)
    (hfind : m.windows.find? (fun w0 => decide (w0.handle = h)) = some w)
    (hman : w.is_unmanaged = false) :
    (focus_window m h).2 = true ∧
    (focus_window m h).1.actions = m.actions ++ [DisplayAction.WindowTakeFocus w] ∧
    ((∃ fw, m.focused_window = some fw ∧ fw.handle = h) →
      (focus_window m h).1.focus_manager.window_history
        = m.focus_manager.window_history) ∧
    ((¬ ∃ fw, m.focused_window = some fw ∧ fw.handle = h) →
      (focus_window m h).1.focus_manager.window_history
        = some h :: m.focus_manager.window_history.take 10) := by
  have hm1 : ({ m with actions :=
      m.actions ++ [DisplayAction.WindowTakeFocus w] } : Manager).focused_window
      = m.focused_window := rfl
  have hb : ∃ m1, focus_window_by_handle_work m h = (m1, some w) ∧
      m1.actions = m.actions ++ [DisplayAction.WindowTakeFocus w] ∧
      ((∃ fw, m.focused_window = some fw ∧ fw.handle = h) →
        m1.focus_manager.window_history = m.focus_manager.window_history) ∧
      ((¬ ∃ fw, m.focused_window = some fw ∧ fw.handle = h) →
        m1.focus_manager.window_history
          = some h :: m.focus_manager.window_history.take 10) := by
    unfold focus_window_by_handle_work
    rw [hfind]
    dsimp only
    rw [if_neg (by rw [hman]; exact Bool.false_ne_true), hm1]
    cases hfw : m.focused_window with
    | none =>
        refine ⟨_, rfl, rfl, ?_, fun _ => rfl⟩
        rintro ⟨fw, hfw2, _⟩
        exact absurd hfw2 (by simp)
    | some fw =>
        dsimp only
        by_cases hh : fw.handle = h
        · rw [if_pos hh]
          refine ⟨_, rfl, rfl, fun _ => rfl, ?_⟩
          intro hcon
          exact absurd ⟨fw, rfl, hh⟩ hcon
        · rw [if_neg hh]
          refine ⟨_, rfl, rfl, ?_, fun _ => rfl⟩
          rintro ⟨fw2, hfw2, hh2⟩
          have : fw2 = fw := (Option.some.inj hfw2).symm
          rw [this] at hh2
          exact absurd hh2 hh
  obtain ⟨m1, hb1, hacts, hsame, hdiff⟩ := hb
  obtain ⟨wsh, th, he, _, _⟩ := focus_window_tail_shape m h m1 w hb1
  rw [he]
  refine ⟨rfl, hacts, ?_, ?_⟩
  · intro hx
    exact hsame hx
  · intro hx
    exact hdiff hx

/-- Witness for C3: focusing the already-focused window 1 of the
concrete manager still emits WindowTakeFocus while leaving the window
history unchanged. -/
theorem focus_window_takes_focus_witness :
    (focus_window test_manager 1).2 = true ∧
    (focus_window test_manager 1).1.actions
      = test_manager.actions ++ [DisplayAction.WindowTakeFocus test_window] ∧
    (focus_window test_manager 1).1.focus_manager.window_history
      = test_manager.focus_manager.window_history := by
  have h := focus_window_takes_focus test_manager 1 test_window rfl rfl
  exact ⟨h.1, h.2.1, h.2.2.1 ⟨test_window, rfl, rfl⟩⟩

theorem focused_window_mem (m : Manager) (w : Window)
    (h : m.focused_window = some w) : w ∈ m.windows := by
  unfold Manager.focused_window at h
  obtain ⟨hd, _, hfind⟩ := Option.bind_eq_some.mp h
  exact List.mem_of_find?_eq_some hfind

theorem bhw_windows (m : Manager) (h : Nat) :
    (focus_window_by_handle_work m h).1.windows = m.windows := by
  obtain ⟨acts, hist, he, _, _⟩ := focus_window_by_handle_work_shape m h
  rw [he]

theorem bhw_focused (m : Manager) (h : Nat) :
    (focus_window_by_handle_work m h).1.focused_window = m.focused_window ∨
    ∃ w, (focus_window_by_handle_work m h).1.focused_window = some w ∧
      w ∈ m.windows := by
  unfold focus_window_by_handle_work
  cases hf : m.windows.find? (fun w => decide (w.handle = h)) with
  | none => exact Or.inl rfl
  | some found =>
      dsimp only
      by_cases hu : found.is_unmanaged = true
      · rw [if_pos hu]
        exact Or.inl rfl
      · rw [if_neg hu]
        have hpush : ∀ m1 : Manager, m1.windows = m.windows →
            (window_history_push m1 h).focused_window = some found := by
          intro m1 hw
          unfold Manager.focused_window window_history_push
          dsimp only
          rw [hw]
          exact hf
        cases hfw : ({ m with actions :=
            m.actions ++ [DisplayAction.WindowTakeFocus found] } : Manager).focused_window with
        | none =>
            dsimp only
            exact Or.inr ⟨found, hpush _ rfl, List.mem_of_find?_eq_some hf⟩
        | some fw =>
            dsimp only
            by_cases hh : fw.handle = h
            · rw [if_pos hh]
              exact Or.inl rfl
            · rw [if_neg hh]
              exact Or.inr ⟨found, hpush _ rfl, List.mem_of_find?_eq_some hf⟩

theorem restore_windows (m2 : Manager) (tag : String) (tf : List Workspace) :
    (focus_tag_restore m2 tag tf).windows = m2.windows := by
  unfold focus_tag_restore
  by_cases hb : m2.focus_manager.behaviour = FocusBehaviour.Sloppy
  · rw [if_pos hb]
  · rw [if_neg hb]
    cases m2.focus_manager.tags_last_window.lookup tag with
    | some handle => exact bhw_windows m2 handle
    | none =>
        dsimp only
        cases tf.head? with
        | none => rfl
        | some ws =>
            dsimp only
            cases (m2.windows.find? (fun w => ws.is_managed w)).map (fun w => w.handle) with
            | none => rfl
            | some h => exact bhw_windows m2 h

theorem restore_focused (m2 : Manager) (tag : String) (tf : List Workspace) :
    (focus_tag_restore m2 tag tf).focused_window = m2.focused_window ∨
    ∃ w, (focus_tag_restore m2 tag tf).focused_window = some w ∧ w ∈ m2.windows := by
  unfold focus_tag_restore
  by_cases hb : m2.focus_manager.behaviour = FocusBehaviour.Sloppy
  · rw [if_pos hb]
    exact Or.inl rfl
  · rw [if_neg hb]
    cases m2.focus_manager.tags_last_window.lookup tag with
    | some handle => exact bhw_focused m2 handle
    | none =>
        dsimp only
        cases tf.head? with
        | none => exact Or.inl rfl
        | some ws =>
            dsimp only
            cases (m2.windows.find? (fun w => ws.is_managed w)).map (fun w => w.handle) with
            | none => exact Or.inl rfl
            | some h => exact bhw_focused m2 h

theorem focus_tag_tail_unfocuses (m M2 : Manager) (tag : String)
    (tf : List Workspace)
    (hfw : M2.focused_window = m.focused_window)
    (hwin : M2.windows = m.windows)
    (hw : ∃ w0, m.focused_window = some w0)
    (hempty : ∀ w ∈ m.windows, tag ∉ w.tags) :
    (focus_tag_unfocus (focus_tag_restore M2 tag tf)
        tag).focus_manager.window_history.head? = some none ∧
    DisplayAction.Unfocus ∈ (focus_tag_unfocus (focus_tag_restore M2 tag tf)
        tag).actions := by
  obtain ⟨w0, hw0⟩ := hw
  have hex : ∃ w3, (focus_tag_restore M2 tag tf).focused_window = some w3 ∧
      w3 ∈ m.windows := by
    rcases restore_focused M2 tag tf with hsame | ⟨w, hfw3, hmem⟩
    · exact ⟨w0, by rw [hsame, hfw, hw0], focused_window_mem m w0 hw0⟩
    · refine ⟨w, hfw3, ?_⟩
      rw [hwin] at hmem
      exact hmem
  obtain ⟨w3, hfw3, hmem3⟩ := hex
  have hnot : tag ∉ w3.tags := hempty w3 hmem3
  have hunf : focus_tag_unfocus (focus_tag_restore M2 tag tf) tag
      = { (focus_tag_restore M2 tag tf) with
          actions := (focus_tag_restore M2 tag tf).actions ++ [DisplayAction.Unfocus],
          focus_manager := { (focus_tag_restore M2 tag tf).focus_manager with
              window_history :=
                none :: (focus_tag_restore M2 tag tf).focus_manager.window_history } } := by
    unfold focus_tag_unfocus
    rw [hfw3]
    dsimp only
    rw [if_neg hnot]
  rw [hunf]
  refine ⟨rfl, ?_⟩
  exact List.mem_append_right _ (by simp)

/-- Counterexample to claim C4 as stated: in a state where a window is
focused but the target tag is already at the front of the tag history,
focus_tag is guarded into a no-op — even though the focused window does
not belong to the tag (which has zero member windows), nothing is
pushed onto the window history and no Unfocus action is emitted. -/
theorem focus_tag_current_tag_counterexample :
    (⟨[⟨1, ["1"], false, false, ⟨0, 0, 0, 0⟩⟩], [], [],
        ⟨FocusBehaviour.Sloppy, [], [some 1], ["2"], []⟩, 0⟩ :
      Manager).focused_window = some ⟨1, ["1"], false, false, ⟨0, 0, 0, 0⟩⟩ ∧
    (∀ w ∈ (⟨[⟨1, ["1"], false, false, ⟨0, 0, 0, 0⟩⟩], [], [],
        ⟨FocusBehaviour.Sloppy, [], [some 1], ["2"], []⟩, 0⟩ :
      Manager).windows, "2" ∉ w.tags) ∧
    (focus_tag (⟨[⟨1, ["1"], false, false, ⟨0, 0, 0, 0⟩⟩], [], [],
        ⟨FocusBehaviour.Sloppy, [], [some 1], ["2"], []⟩, 0⟩ : Manager)
        "2").1.focus_manager.window_history.head? ≠ some none ∧
    DisplayAction.Unfocus ∉
      (focus_tag (⟨[⟨1, ["1"], false, false, ⟨0, 0, 0, 0⟩⟩], [], [],
          ⟨FocusBehaviour.Sloppy, [], [some 1], ["2"], []⟩, 0⟩ : Manager)
          "2").1.actions := by
  refine ⟨rfl, ?_, ?_, ?_⟩ <;> decide

/-- Claim C4 (amended): when a window is focused, the target tag
differs from the current front of the tag history, and no window at all
carries the target tag, focus_tag succeeds, pushes none onto the front
of the window history, and emits an Unfocus action. -/
theorem focus_tag_empty_unfocuses (m : Manager) (tag : String)
    (hw : ∃ w0, m.focused_window = some w0)
    (hcur : m.focus_manager.tag 0 ≠ some tag)
    (hempty : ∀ w ∈ m.windows, tag ∉ w.tags) :
    (focus_tag m tag).2 = true ∧
    (focus_tag m tag).1.focus_manager.window_history.head? = some none ∧
    DisplayAction.Unfocus ∈ (focus_tag m tag).1.actions := by
  have hwork : focus_tag_work m tag =
      ({ m with focus_manager := { m.focus_manager with
          tag_history := tag :: m.focus_manager.tag_history.take 10 } }, true) := by
    unfold focus_tag_work
    cases hft : m.focus_manager.tag 0 with
    | none => rfl
    | some t0 =>
        dsimp only
        rw [if_neg (fun he => hcur (by rw [hft]; exact congrArg some he))]
        rfl
  have hgoal : focus_tag m tag
      = (focus_tag_unfocus (focus_tag_restore
          ((m.workspaces.filter (fun w => w.has_tag tag)).foldl
            (fun acc ws => (focus_workspace_work acc ws.id).1)
            { m with focus_manager := { m.focus_manager with
                tag_history := tag :: m.focus_manager.tag_history.take 10 } })
          tag (m.workspaces.filter (fun w => w.has_tag tag))) tag, true) := by
    unfold focus_tag
    rw [hwork]
  obtain ⟨histW, he2, _⟩ :=
    fold_fww_shape (m.workspaces.filter (fun w => w.has_tag tag))
      { m with focus_manager := { m.focus_manager with
          tag_history := tag :: m.focus_manager.tag_history.take 10 } }
  have htail := focus_tag_tail_unfocuses m
    ((m.workspaces.filter (fun w => w.has_tag tag)).foldl
      (fun acc ws => (focus_workspace_work acc ws.id).1)
      { m with focus_manager := { m.focus_manager with
          tag_history := tag :: m.focus_manager.tag_history.take 10 } })
    tag (m.workspaces.filter (fun w => w.has_tag tag))
    (by rw [he2]; rfl) (by rw [he2]) hw hempty
  rw [hgoal]
  exact ⟨rfl, htail.1, htail.2⟩

/-- Witness for C4: on the concrete manager with window 1 focused on
tag 1, focusing the windowless tag 2 pushes none onto the window
history front and emits Unfocus. -/
theorem focus_tag_empty_unfocuses_witness :
    (focus_tag test_manager "2").2 = true ∧
    (focus_tag test_manager "2").1.focus_manager.window_history.head? = some none ∧
    DisplayAction.Unfocus ∈ (focus_tag test_manager "2").1.actions := by
  exact focus_tag_empty_unfocuses test_manager "2"
    ⟨test_window, rfl⟩ (by decide) (by decide)

/-! ## Closest-window selection (claim C5) -/

theorem insertionSort_head_min (l : List (Int × Window)) :
    ∀ p : Int × Window,
      (l.insertionSort (fun a b => a.1 ≤ b.1)).head? = some p →
      ∃ l1 l2, l = l1 ++ p :: l2 ∧ (∀ q ∈ l1, p.1 < q.1) ∧
        (∀ q ∈ l, p.1 ≤ q.1) := by
  induction l with
  | nil => intro p hh; simp [List.insertionSort] at hh
  | cons a rest ih =>
      intro p hh
      rw [List.insertionSort] at hh
      cases hs : rest.insertionSort (fun a b => a.1 ≤ b.1) with
      | nil =>
          rw [hs] at hh
          simp only [List.orderedInsert, List.head?_cons, Option.some.injEq] at hh
          have hrest : rest = [] := by
            have hp := List.perm_insertionSort (fun (a b : Int × Window) => a.1 ≤ b.1) rest
            rw [hs] at hp
            exact (List.Perm.nil_eq hp).symm
          subst hrest
          refine ⟨[], [], by rw [← hh]; rfl, by simp, ?_⟩
          intro q hq
          rw [List.mem_singleton] at hq
          exact le_of_eq (by rw [hq, hh])
      | cons b t =>
          rw [hs] at hh
          have hbt : (rest.insertionSort (fun a b => a.1 ≤ b.1)).head? = some b := by
            rw [hs]
            rfl
          obtain ⟨r1, r2, hre, hr1, hr2⟩ := ih b hbt
          simp only [List.orderedInsert] at hh
          split at hh
          next hab =>
            simp only [List.head?_cons, Option.some.injEq] at hh
            subst hh
            refine ⟨[], rest, rfl, by simp, ?_⟩
            intro q hq
            rcases List.mem_cons.mp hq with hq | hq
            · exact le_of_eq (by rw [hq])
            · exact le_trans hab (hr2 q hq)
          next hab =>
            simp only [List.head?_cons, Option.some.injEq] at hh
            subst hh
            have hba : b.1 < a.1 := lt_of_not_le hab
            refine ⟨a :: r1, r2, by rw [hre]; rfl, ?_, ?_⟩
            · intro q hq
              rcases List.mem_cons.mp hq with hq | hq
              · rw [hq]; exact hba
              · exact hr1 q hq
            · intro q hq
              rcases List.mem_cons.mp hq with hq | hq
              · rw [hq]; exact le_of_lt hba
              · exact hr2 q hq

theorem map_decomp (f : Window → Int × Window) (c : List Window)
    (L1 L2 : List (Int × Window)) (p : Int × Window)
    (h : c.map f = L1 ++ p :: L2) :
    ∃ c1 w c2, c = c1 ++ w :: c2 ∧ c1.map f = L1 ∧ f w = p ∧ c2.map f = L2 := by
  induction c generalizing L1 with
  | nil => cases L1 <;> simp at h
  | cons a rest ih =>
      cases L1 with
      | nil =>
          simp only [List.map_cons, List.nil_append, List.cons.injEq] at h
          exact ⟨[], a, rest, rfl, rfl, h.1, h.2⟩
      | cons q L1x =>
          simp only [List.map_cons, List.cons_append, List.cons.injEq] at h
          obtain ⟨c1, w, c2, hce, hc1, hfw, hc2⟩ := ih L1x h.2
          exact ⟨a :: c1, w, c2, by rw [hce]; rfl, by simp [h.1, hc1], hfw, hc2⟩

/-- Claim C5: when no focusable window contains the point, a
move_focus_to_point falls back to the closest window: with no workspace
containing the point it returns false and changes nothing; otherwise,
among the focusable windows managed by that workspace, it focuses the
window at minimal integer Euclidean distance from the point, resolving
ties to the window that appears first in registry order. -/
theorem move_focus_to_point_closest (m : Manager) (x y : Int)
    (hnc : ∀ w ∈ m.windows, w.can_focus = true → w.contains_point x y = false) :
    (m.workspaces.find? (fun ws => ws.contains_point x y) = none →
      move_focus_to_point m x y = (m, false)) ∧
    (∀ ws, m.workspaces.find? (fun ws => ws.contains_point x y) = some ws →
      (m.windows.filter (fun w => ws.is_managed w && w.can_focus) = [] →
        move_focus_to_point m x y = (m, false)) ∧
      (m.windows.filter (fun w => ws.is_managed w && w.can_focus) ≠ [] →
        ∃ c1 wbest c2,
          m.windows.filter (fun w => ws.is_managed w && w.can_focus)
            = c1 ++ wbest :: c2 ∧
          (∀ v ∈ c1, distance wbest x y < distance v x y) ∧
          (∀ v ∈ m.windows.filter (fun w => ws.is_managed w && w.can_focus),
            distance wbest x y ≤ distance v x y) ∧
          move_focus_to_point m x y = focus_window m wbest.handle)) := by
  have hfind : (m.windows.filter (fun w => w.can_focus)).find?
      (fun w => w.contains_point x y) = none := by
    rw [List.find?_eq_none]
    intro w hw
    have hmem := List.mem_filter.mp hw
    simp [hnc w hmem.1 hmem.2]
  have hm : move_focus_to_point m x y = focus_closest_window m x y := by
    unfold move_focus_to_point
    rw [hfind]
    rfl
  rw [hm]
  constructor
  · intro hws
    unfold focus_closest_window
    rw [hws]
  · intro ws hws
    unfold focus_closest_window
    rw [hws]
    dsimp only
    constructor
    · intro hc
      rw [hc]
      rfl
    · intro hc
      cases hh : (((m.windows.filter (fun w => ws.is_managed w && w.can_focus)).map
          (fun w => (distance w x y, w))).insertionSort (fun a b => a.1 ≤ b.1)).head? with
      | none =>
          exfalso
          rw [List.head?_eq_none_iff] at hh
          have hp := List.perm_insertionSort (fun (a b : Int × Window) => a.1 ≤ b.1)
            ((m.windows.filter (fun w => ws.is_managed w && w.can_focus)).map
              (fun w => (distance w x y, w)))
          rw [hh] at hp
          have := (List.Perm.nil_eq hp).symm
          rw [List.map_eq_nil_iff] at this
          exact hc this
      | some p =>
          obtain ⟨L1, L2, hLe, hL1, hL2⟩ := insertionSort_head_min _ p hh
          obtain ⟨c1, w, c2, hce, hc1, hfw, hc2⟩ := map_decomp _ _ _ _ _ hLe
          have hw2 : p.2 = w := by rw [← hfw]
          have hw1 : p.1 = distance w x y := by rw [← hfw]
          refine ⟨c1, w, c2, hce, ?_, ?_, ?_⟩
          · intro v hv
            have : (distance v x y, v) ∈ L1 := by
              rw [← hc1]
              exact List.mem_map_of_mem _ hv
            have := hL1 _ this
            rw [hw1] at this
            exact this
          · intro v hv
            have hmem : (distance v x y, v) ∈
                (m.windows.filter (fun w => ws.is_managed w && w.can_focus)).map
                  (fun w => (distance w x y, w)) := List.mem_map_of_mem _ hv
            have := hL2 _ hmem
            rw [hw1] at this
            exact this
          · dsimp only
            rw [hw2]

theorem distance_test_window : distance test_window 0 0 = 3 := by
  show Int.ofNat (Nat.sqrt (((3 : Int) + 0 / 2 - 0) * ((3 : Int) + 0 / 2 - 0) +
    ((0 : Int) + 0 / 2 - 0) * ((0 : Int) + 0 / 2 - 0)).toNat) = 3
  norm_num
  rw [show (9 : Int).toNat = 3 * 3 from rfl, Nat.sqrt_eq]
  rfl

theorem distance_test_window2 : distance test_window2 0 0 = 5 := by
  show Int.ofNat (Nat.sqrt (((0 : Int) + 0 / 2 - 0) * ((0 : Int) + 0 / 2 - 0) +
    ((5 : Int) + 0 / 2 - 0) * ((5 : Int) + 0 / 2 - 0)).toNat) = 5
  norm_num
  rw [show (25 : Int).toNat = 5 * 5 from rfl, Nat.sqrt_eq]
  rfl

/-- Witness for C5: on the concrete manager whose two focusable windows
sit at distances 5 and 3 (in that registry order) from the origin, which
no window covers, move_focus_to_point focuses the distance-3 window. -/
theorem move_focus_to_point_closest_witness :
    move_focus_to_point fresh_manager 0 0
      = focus_window fresh_manager test_window.handle ∧
    distance test_window 0 0 = 3 ∧ distance test_window2 0 0 = 5 := by
  have d3 := distance_test_window
  have d5 := distance_test_window2
  have h := move_focus_to_point_closest fresh_manager 0 0 (by decide)
  have h2 := (h.2 test_workspace rfl).2 (by decide)
  obtain ⟨c1, wbest, c2, hdec, hstrict, hmin, heq⟩ := h2
  have hc : fresh_manager.windows.filter
      (fun w => test_workspace.is_managed w && w.can_focus)
      = [test_window2, test_window] := by decide
  rw [hc] at hdec hmin
  have hbest : wbest = test_window := by
    rcases c1 with _ | ⟨a, c1x⟩
    · exfalso
      simp only [List.nil_append, List.cons.injEq] at hdec
      have hww : wbest = test_window2 := hdec.1.symm
      have hle := hmin test_window (by simp)
      rw [hww, d5, d3] at hle
      omega
    · rcases c1x with _ | ⟨b, c1y⟩
      · simp only [List.cons_append, List.nil_append, List.cons.injEq] at hdec
        exact hdec.2.1.symm
      · exfalso
        have hlen := congrArg List.length hdec
        simp only [List.length_cons, List.length_append, List.length_nil] at hlen
        omega
  rw [hbest] at heq
  exact ⟨heq, d3, d5⟩

/-! ## History bound invariant (claim C1) -/

theorem take10_cons_len_le {α : Type} (a : α) (l : List α) :
    (a :: l.take 10).length ≤ 11 := by
  simp only [List.length_cons, List.length_take]
  omega

theorem HistoryBound_bhw (m : Manager) (h : Nat) (hb : HistoryBound m) :
    HistoryBound (focus_window_by_handle_work m h).1 := by
  obtain ⟨acts, hist, he, _, hc⟩ := focus_window_by_handle_work_shape m h
  rw [he]
  refine ⟨hb.1, hb.2.1, ?_⟩
  rcases hc with hc | hc
  · rw [hc]
    exact hb.2.2
  · rw [hc]
    exact Or.inl (take10_cons_len_le _ _)

theorem HistoryBound_focus_window (m : Manager) (h : Nat) (hb : HistoryBound m) :
    HistoryBound (focus_window m h).1 := by
  have hbm1 := HistoryBound_bhw m h hb
  cases hres : focus_window_by_handle_work m h with
  | mk m1 ow =>
      rw [hres] at hbm1
      cases ow with
      | none =>
          rw [focus_window_of_none m h m1 hres]
          exact hbm1
      | some w =>
          obtain ⟨wsh, th, he, hwc, htc⟩ := focus_window_tail_shape m h m1 w hres
          rw [he]
          refine ⟨?_, ?_, hbm1.2.2⟩
          · rcases hwc with hc | hc | ⟨k, hc⟩
            · rw [hc]; exact hbm1.1
            · rw [hc]; simp only [List.length_take]; omega
            · rw [hc]; exact take10_cons_len_le _ _
          · rcases htc with hc | ⟨tg, hc⟩
            · rw [hc]; exact hbm1.2.1
            · rw [hc]; exact take10_cons_len_le _ _

theorem HistoryBound_fww (m : Manager) (i : Option Int) (hb : HistoryBound m) :
    HistoryBound (focus_workspace_work m i).1 := by
  obtain ⟨hist, he, hc⟩ := focus_workspace_work_shape m i
  rw [he]
  refine ⟨?_, hb.2.1, hb.2.2⟩
  rcases hc with hc | hc | ⟨k, hc⟩
  · rw [hc]; exact hb.1
  · rw [hc]; simp only [List.length_take]; omega
  · rw [hc]; exact take10_cons_len_le _ _

theorem HistoryBound_ftw (m : Manager) (t : String) (hb : HistoryBound m) :
    HistoryBound (focus_tag_work m t).1 := by
  obtain ⟨hist, he, hc⟩ := focus_tag_work_shape m t
  rw [he]
  refine ⟨hb.1, ?_, hb.2.2⟩
  rcases hc with hc | hc
  · rw [hc]; exact hb.2.1
  · rw [hc]; exact take10_cons_len_le _ _

theorem HistoryBound_focus_workspace (m : Manager) (ws : Workspace)
    (hb : HistoryBound m) : HistoryBound (focus_workspace m ws).1 := by
  have hbm1 := HistoryBound_fww m ws.id hb
  unfold focus_workspace
  cases hres : focus_workspace_work m ws.id with
  | mk m1 b =>
      rw [hres] at hbm1
      cases b with
      | false => exact hbm1
      | true =>
          dsimp only
          obtain ⟨histT, he2, hlen⟩ := fold_ftw_shape ws.tags m1
          obtain ⟨acts, he3⟩ := update_current_tags_shape
            (ws.tags.foldl (fun acc t => (focus_tag_work acc t).1) m1)
          rw [he3, he2]
          exact ⟨hbm1.1, hlen hbm1.2.1, hbm1.2.2⟩

theorem HistoryBound_restore (m2 : Manager) (tag : String) (tf : List Workspace)
    (hb : HistoryBound m2) : HistoryBound (focus_tag_restore m2 tag tf) := by
  unfold focus_tag_restore
  by_cases hbe : m2.focus_manager.behaviour = FocusBehaviour.Sloppy
  · rw [if_pos hbe]
    exact hb
  · rw [if_neg hbe]
    cases m2.focus_manager.tags_last_window.lookup tag with
    | some handle => exact HistoryBound_bhw m2 handle hb
    | none =>
        dsimp only
        cases tf.head? with
        | none => exact hb
        | some ws =>
            dsimp only
            cases (m2.windows.find? (fun w => ws.is_managed w)).map (fun w => w.handle) with
            | none => exact hb
            | some h => exact HistoryBound_bhw m2 h hb

theorem HistoryBound_unfocus (m3 : Manager) (tag : String)
    (hb : HistoryBound m3) : HistoryBound (focus_tag_unfocus m3 tag) := by
  unfold focus_tag_unfocus
  cases hfw : m3.focused_window with
  | none => exact hb
  | some w =>
      dsimp only
      by_cases ht : tag ∈ w.tags
      · rw [if_pos ht]
        exact hb
      · rw [if_neg ht]
        refine ⟨hb.1, hb.2.1, ?_⟩
        have hhd : ∃ k, m3.focus_manager.window_history.head? = some (some k) := by
          unfold Manager.focused_window at hfw
          obtain ⟨hd, hhd, _⟩ := Option.bind_eq_some.mp hfw
          obtain ⟨o, ho1, ho2⟩ := Option.bind_eq_some.mp hhd
          exact ⟨hd, by rw [ho1]; exact congrArg some ho2⟩
        obtain ⟨k, hk⟩ := hhd
        have hlen : m3.focus_manager.window_history.length ≤ 11 := by
          rcases hb.2.2 with hl | ⟨_, hl⟩
          · exact hl
          · rw [hl] at hk
            simp at hk
        show WindowHistoryInv (none :: m3.focus_manager.window_history)
        by_cases h11 : m3.focus_manager.window_history.length ≤ 10
        · exact Or.inl (by simp; omega)
        · refine Or.inr ⟨by simp; omega, rfl⟩

theorem HistoryBound_fold_fww (l : List Workspace) (m : Manager)
    (hb : HistoryBound m) :
    HistoryBound (l.foldl (fun acc ws => (focus_workspace_work acc ws.id).1) m) := by
  obtain ⟨hist, he, hlen⟩ := fold_fww_shape l m
  rw [he]
  exact ⟨hlen hb.1, hb.2.1, hb.2.2⟩

theorem HistoryBound_focus_tag (m : Manager) (t : String) (hb : HistoryBound m) :
    HistoryBound (focus_tag m t).1 := by
  have hbm1 := HistoryBound_ftw m t hb
  unfold focus_tag
  cases hres : focus_tag_work m t with
  | mk m1 b =>
      rw [hres] at hbm1
      cases b with
      | false => exact hbm1
      | true =>
          dsimp only
          exact HistoryBound_unfocus _ t (HistoryBound_restore _ t _
            (HistoryBound_fold_fww _ m1 hbm1))

theorem HistoryBound_validate (m : Manager) (x y : Int) (hb : HistoryBound m) :
    HistoryBound (validate_focus_at m x y).1 := by
  unfold validate_focus_at
  cases m.focused_window with
  | none => exact hb
  | some current =>
      dsimp only
      cases (m.windows.filter (fun w => w.can_focus)).find?
          (fun w => w.contains_point x y) with
      | none => exact hb
      | some window =>
          dsimp only
          by_cases hh : current.handle = window.handle
          · rw [if_pos hh]
            exact hb
          · rw [if_neg hh]
            exact HistoryBound_focus_window m window.handle hb

theorem HistoryBound_move_focus (m : Manager) (x y : Int) (hb : HistoryBound m) :
    HistoryBound (move_focus_to_point m x y).1 := by
  unfold move_focus_to_point
  cases ((m.windows.filter (fun w => w.can_focus)).find?
      (fun w => w.contains_point x y)).map (fun w => w.handle) with
  | some found => exact HistoryBound_focus_window m found hb
  | none =>
      dsimp only
      unfold focus_closest_window
      cases m.workspaces.find? (fun ws => ws.contains_point x y) with
      | none => exact hb
      | some ws =>
          dsimp only
          cases (((m.windows.filter (fun w => ws.is_managed w && w.can_focus)).map
              (fun w => (distance w x y, w))).insertionSort
                (fun a b => a.1 ≤ b.1)).head? with
          | some first => exact HistoryBound_focus_window m first.2.handle hb
          | none => exact hb

theorem HistoryBound_cursor (m : Manager) (x y : Int) (hb : HistoryBound m) :
    HistoryBound (focus_workspace_under_cursor m x y).1 := by
  unfold focus_workspace_under_cursor
  dsimp only
  split
  next w heq => exact HistoryBound_focus_workspace m w hb
  next heq => exact hb

theorem HistoryBound_apply (m : Manager) (op : FocusOp) (hb : HistoryBound m) :
    HistoryBound (op.apply m) := by
  cases op with
  | focusWorkspaceOp ws => exact HistoryBound_focus_workspace m ws hb
  | focusWindowOp h => exact HistoryBound_focus_window m h hb
  | focusTagOp t => exact HistoryBound_focus_tag m t hb
  | validateFocusAtOp x y => exact HistoryBound_validate m x y hb
  | moveFocusToPointOp x y => exact HistoryBound_move_focus m x y hb
  | focusWorkspaceUnderCursorOp x y => exact HistoryBound_cursor m x y hb

/-- Counterexample to claim C1 as stated: eleven focus operations on
eleven distinct tags, starting from empty histories, leave the tag
history with 11 entries — the configured cap of 10 is exceeded, because
the code truncates to 10 before pushing rather than after. -/
theorem history_cap_counterexample :
    eleven_tags.Nodup ∧ eleven_tags.length = 11 ∧
    (apply_ops ⟨[], [], [], ⟨FocusBehaviour.Sloppy, [], [], [], []⟩, 0⟩
        (eleven_tags.map FocusOp.focusTagOp)).focus_manager.tag_history.length
      = 11 ∧ ¬ (11 ≤ 10) := by
  refine ⟨by decide, rfl, ?_, by decide⟩
  decide

/-- Claim C1 as amended: over every sequence of focus operations, the
workspace and tag histories never exceed 11 entries and the window
history never exceeds 12 (with the front then being none) — each push
truncates to the 10 most recent entries first, so the configured cap of
10 is transiently overshot by one (plus one more for the untruncated
unfocus push), rather than being a hard bound of 10. -/
theorem history_bound_ops (m : Manager) (ops : List FocusOp)
    (hb : HistoryBound m) : HistoryBound (apply_ops m ops) := by
  induction ops generalizing m with
  | nil => exact hb
  | cons op rest ih => exact ih _ (HistoryBound_apply m op hb)

/-- Witness for the amended C1: after the eleven distinct tag focuses
from empty histories, all three histories satisfy the bound. -/
theorem history_bound_ops_witness :
    HistoryBound (apply_ops ⟨[], [], [], ⟨FocusBehaviour.Sloppy, [], [], [], []⟩, 0⟩
      (eleven_tags.map FocusOp.focusTagOp)) := by
  exact history_bound_ops _ _ ⟨by decide, by decide, Or.inl (by decide)⟩

end LeftWM
